import Mathlib

/-!
Verification of the defang-schemes library.

Strings are modelled as lists of characters (`List Char`).  The schemes in
scope are lowercase ASCII tokens, for which Go's byte length (`len`) and the
rune count coincide, so a single length function suffices.

The embedded code:
  * `DefangScheme` and its helpers, from the library source file
    (`replaceAtPositions`, `defangAtPositions`, the additional-character
    regex rule).
  * the registry verifier from `tools/defangcheck/main.go`
    (`defangedSchemeIsKnown`, `defangedSchemesAreNotValid`,
    `defangedSchemesAreOneToOne`), modelled as `Except`-valued functions:
    `os.Exit(1)` on the first non-exempt violation becomes `Except.error`,
    and each printed `[WARN]` line is counted in the returned `Nat`.
-/

/-- As well as letters, these characters are allowed in URI schemes
(`ADDITIONAL_ALLOWED_SCHEME_CHARS` in the source). -/
def ADDITIONAL_ALLOWED_SCHEME_CHARS : List Char := ['-', '+', '.']

/-- Whether a character is one of the additional allowed scheme characters.
The source compiles the regex `[-+.]+` from the list above; a string matches
that pattern iff it contains at least one of these characters, and each
leftmost-longest match of the pattern is a maximal run of them. -/
def isExtraChar (c : Char) : Bool := ADDITIONAL_ALLOWED_SCHEME_CHARS.contains c

/-- Embedding of `replaceAtPositions(s, positions, replacement)`: within `s`,
replace the characters at `positions` (skipping out-of-range positions) with
`replacement`.  Positions are `Int`, as in the source (`[]int`), and the
bounds test `pos >= 0 && pos < len(runes)` is kept verbatim. -/
def replaceAtPositions (s : List Char) (positions : List Int) (replacement : Char) : List Char :=
  positions.foldl
    (fun runes pos =>
      if 0 ≤ pos ∧ pos < (runes.length : Int) then runes.set pos.toNat replacement else runes)
    s

/-- Embedding of `defangAtPositions`: replace the given positions with the
marker rune `x`. -/
def defangAtPositions (s : List Char) (positions : List Int) : List Char :=
  replaceAtPositions s positions 'x'

/-- Embedding of the regex replacement
`ADDITIONAL_ALLOWED_SCHEME_CHARS_PATTERN.ReplaceAllStringFunc(scheme, match ↦ "[" ++ match ++ "]")`
for the pattern `[-+.]+`.  The Boolean flag records whether we are currently
inside a (maximal) run of extra characters that has been opened with `[`
and still needs its closing `]`. -/
def wrapExtraRunsGo : Bool → List Char → List Char
  | false, [] => []
  | true, [] => [']']
  | false, c :: rest =>
    if isExtraChar c then '[' :: c :: wrapExtraRunsGo true rest
    else c :: wrapExtraRunsGo false rest
  | true, c :: rest =>
    if isExtraChar c then c :: wrapExtraRunsGo true rest
    else ']' :: c :: wrapExtraRunsGo false rest

/-- Each maximal run of the characters `-`, `+`, `.` in `s` is wrapped in
square brackets; all other characters are passed through. -/
def wrapExtraRuns (s : List Char) : List Char := wrapExtraRunsGo false s

/-- Embedding of `DefangScheme`.  The Go function prints an error and calls
`os.Exit(1)` on input of length 1; that aborting path is modelled as `none`.
Every other path returns `some` defanged string.  The case order is that of
the source: exact `http`/`https` match, then the extra-character regex rule,
then lengths 3, 2, 4, then the default rule. -/
def DefangScheme (scheme : List Char) : Option (List Char) :=
  if scheme.length = 1 then
    none
  else if scheme = "http".toList ∨ scheme = "https".toList then
    some (defangAtPositions scheme [1, 2])
  else if scheme.any isExtraChar then
    some (wrapExtraRuns scheme)
  else if scheme.length = 3 then
    some (defangAtPositions scheme [1])
  else if scheme.length = 2 then
    some (defangAtPositions scheme [1])
  else if scheme.length = 4 then
    some (defangAtPositions scheme [2])
  else
    some (defangAtPositions scheme [1, 2])

/-- Registration status of a scheme (`Status` in the source). -/
inductive Status where
  | Permanent
  | Provisional
  | Historical
deriving DecidableEq, Repr

/-- A registry record (`Scheme` struct in the source).  The fields the
verifier never reads (`Template`, `Description`, `WellKnownUriSupport`,
`Reference`, `Notes`) are inert strings and default to empty here. -/
structure Scheme where
  scheme : List Char
  defangedScheme : List Char
  template : List Char := []
  description : List Char := []
  status : Status := Status.Permanent
  wellKnownUriSupport : List Char := []
  reference : List Char := []
  notes : List Char := []
deriving DecidableEq, Repr

/-- Embedding of `defangedSchemeIsKnown`: whether the defanged form of
`scheme` equals the (original) name of some record in `knownSchemes`. -/
def defangedSchemeIsKnown (scheme : Scheme) (knownSchemes : List Scheme) : Bool :=
  knownSchemes.any (fun knownScheme => scheme.defangedScheme == knownScheme.scheme)

/-- The condition guarding both warn-instead-of-fail branches in the source:
`scheme.Scheme == "http" || scheme.Scheme == "hxxp" || scheme.Scheme == "https" || scheme.Scheme == "hxxps"`.
Note the test is on the record's original name only. -/
def isHttpEdgeCase (name : List Char) : Bool :=
  name == "http".toList || name == "hxxp".toList || name == "https".toList
    || name == "hxxps".toList

/-- A fatal verifier outcome: the `os.Exit(1)` paths of the two checks.
`stillValid` carries the offending defanged string; `ambiguous` carries the
duplicated defanged string and the full offender list assembled for the log
message. -/
inductive CheckError where
  | stillValid (defanged : List Char)
  | ambiguous (defanged : List Char) (offenders : List (List Char))
deriving DecidableEq, Repr

/-- Loop of `defangedSchemesAreNotValid`: `schemes` is the full input (used
as the known-scheme list), the second argument is the remaining records, then
the `http_warned` flag and the number of warnings printed so far. -/
def notValidGo (schemes : List Scheme) : List Scheme → Bool → Nat → Except CheckError Nat
  | [], _, warnings => Except.ok warnings
  | s :: rest, httpWarned, warnings =>
    if defangedSchemeIsKnown s schemes then
      if isHttpEdgeCase s.scheme then
        if httpWarned then notValidGo schemes rest httpWarned warnings
        else notValidGo schemes rest true (warnings + 1)
      else Except.error (CheckError.stillValid s.defangedScheme)
    else notValidGo schemes rest httpWarned warnings

/-- Embedding of `defangedSchemesAreNotValid`: confirm that no record's
defanged form is itself a known scheme name.  Returns the number of `[WARN]`
lines printed on success, or the first fatal error. -/
def defangedSchemesAreNotValid (schemes : List Scheme) : Except CheckError Nat :=
  notValidGo schemes schemes false 0

/-- Loop of `defangedSchemesAreOneToOne`: `schemes` is the full input (used
to collect the offender list on error), then the remaining records, the
`seenDefangedSchemes` set (as a list), the `http_warned` flag and the warning
count.  As in the source, every record's defanged form is added to the seen
set at the end of its iteration, including the exempted ones. -/
def oneToOneGo (schemes : List Scheme) :
    List Scheme → List (List Char) → Bool → Nat → Except CheckError Nat
  | [], _, _, warnings => Except.ok warnings
  | s :: rest, seen, httpWarned, warnings =>
    if seen.contains s.defangedScheme then
      if isHttpEdgeCase s.scheme then
        if httpWarned then oneToOneGo schemes rest (s.defangedScheme :: seen) httpWarned warnings
        else oneToOneGo schemes rest (s.defangedScheme :: seen) true (warnings + 1)
      else
        Except.error (CheckError.ambiguous s.defangedScheme
          ((schemes.filter (fun s1 => s1.defangedScheme == s.defangedScheme)).map
            Scheme.scheme))
    else oneToOneGo schemes rest (s.defangedScheme :: seen) httpWarned warnings

/-- Embedding of `defangedSchemesAreOneToOne`: confirm the scheme → defanged
mapping is one-to-one over the input.  Returns the number of `[WARN]` lines
printed on success, or the first fatal error. -/
def defangedSchemesAreOneToOne (schemes : List Scheme) : Except CheckError Nat :=
  oneToOneGo schemes schemes [] false 0

/-- The verification pass over a registry: run the non-validity check, then
the injectivity check, as the tool does.  On success the result is the total
number of `[WARN]` lines the two checks printed. -/
def verifySchemes (schemes : List Scheme) : Except CheckError Nat :=
  match defangedSchemesAreNotValid schemes with
  | Except.error e => Except.error e
  | Except.ok w1 =>
    match defangedSchemesAreOneToOne schemes with
    | Except.error e => Except.error e
    | Except.ok w2 => Except.ok (w1 + w2)

/-- The registry consisting of exactly `http`, `https`, `hxxp`, `hxxps`,
each paired with its defanged form as computed by `DefangScheme`
(`hxxp` and `hxxps` are registered provisional schemes). -/
def httpQuadRegistry : List Scheme :=
  [{ scheme := "http".toList, defangedScheme := "hxxp".toList, status := Status.Permanent },
   { scheme := "https".toList, defangedScheme := "hxxps".toList, status := Status.Permanent },
   { scheme := "hxxp".toList, defangedScheme := "hxxp".toList, status := Status.Provisional },
   { scheme := "hxxps".toList, defangedScheme := "hxxps".toList, status := Status.Provisional }]

/-- The positions that `DefangScheme` overwrites with the marker `x` in the
branches that do marker substitution, read off from the case order of the
source: positions 1 and 2 for `http`/`https`, position 1 for lengths 3 and 2,
position 2 for length 4, and positions 1 and 2 in the default case. -/
def markerPositions (scheme : List Char) : List Nat :=
  if scheme = "http".toList ∨ scheme = "https".toList then [1, 2]
  else if scheme.length = 3 then [1]
  else if scheme.length = 2 then [1]
  else if scheme.length = 4 then [2]
  else [1, 2]

/-- Characters other than the square brackets the extra-character rule
inserts. -/
def isNotBracket (c : Char) : Bool := !(c == '[') && !(c == ']')

/-- An invented two-letter scheme; `DefangScheme "ab" = "ax"`. -/
def abScheme : Scheme := { scheme := "ab".toList, defangedScheme := "ax".toList }

/-- An invented two-letter scheme that is a fixed point of the algorithm:
`DefangScheme "ax" = "ax"`. -/
def axScheme : Scheme := { scheme := "ax".toList, defangedScheme := "ax".toList }

/-- An invented two-letter scheme; `DefangScheme "cd" = "cx"`. -/
def cdScheme : Scheme := { scheme := "cd".toList, defangedScheme := "cx".toList }

/-- An invented two-letter scheme that is a fixed point of the algorithm:
`DefangScheme "cx" = "cx"`. -/
def cxScheme : Scheme := { scheme := "cx".toList, defangedScheme := "cx".toList }

/-- A registry with two independent non-exempt violations of the
non-validity check: `ab` defangs to the registered name `ax`, and `cd`
defangs to the registered name `cx`. -/
def twoViolationRegistry : List Scheme := [abScheme, axScheme, cdScheme, cxScheme]

/-- An invented four-letter scheme; `DefangScheme "hxtp" = "hxxp"`, the same
defanged form that `http` maps to. -/
def hxtpScheme : Scheme := { scheme := "hxtp".toList, defangedScheme := "hxxp".toList }

/-- The registry record for `http` with its computed defanged form. -/
def httpRecord : Scheme := { scheme := "http".toList, defangedScheme := "hxxp".toList }

/-- A registry in which the invented scheme `hxtp` and the real scheme
`http` both defang to `hxxp` — an ambiguity that involves a scheme outside
the documented `http`/`https`/`hxxp`/`hxxps` quadruple. -/
def nameKeyedExemptionRegistry : List Scheme := [hxtpScheme, httpRecord]

/-- An invented three-letter scheme; `DefangScheme "aab" = "axb"`. -/
def aabScheme : Scheme := { scheme := "aab".toList, defangedScheme := "axb".toList }

/-- An invented three-letter scheme; `DefangScheme "acb" = "axb"`. -/
def acbScheme : Scheme := { scheme := "acb".toList, defangedScheme := "axb".toList }

/-- An invented three-letter scheme; `DefangScheme "adb" = "axb"`. -/
def adbScheme : Scheme := { scheme := "adb".toList, defangedScheme := "axb".toList }

/-- A registry in which three distinct invented schemes all defang to the
same string `axb`. -/
def threeWayRegistry : List Scheme := [aabScheme, acbScheme, adbScheme]

/-! ### Helper lemmas -/

theorem listGetD_set_self (l : List Char) (i : Nat) (c d : Char) (h : i < l.length) :
    (l.set i c).getD i d = c := by
  rw [List.getD_eq_getElem?_getD, List.getElem?_set_self]
  · simp
  · simpa using h

theorem listGetD_set_ne (l : List Char) (i j : Nat) (c d : Char) (h : i ≠ j) :
    (l.set j c).getD i d = l.getD i d := by
  rw [List.getD_eq_getElem?_getD, List.getD_eq_getElem?_getD, List.getElem?_set_ne h.symm]

theorem listSet_getD_eq_self (l : List Char) (i : Nat) (c : Char) (h : l.getD i c = c) :
    l.set i c = l := by
  induction l generalizing i with
  | nil => rfl
  | cons a t ih =>
    cases i with
    | zero => simp only [List.getD_cons_zero] at h; simp [h]
    | succ n =>
      simp only [List.getD_cons_succ] at h
      simp [List.set_cons_succ, ih n h]

theorem wrapExtraRunsGo_length_ge (s : List Char) :
    ∀ b, s.length + (if b then 1 else 0) ≤ (wrapExtraRunsGo b s).length := by
  induction s with
  | nil => intro b; cases b <;> simp [wrapExtraRunsGo]
  | cons c rest ih =>
    intro b
    have h1 := ih true
    have h2 := ih false
    cases b <;> cases hc : isExtraChar c <;> simp only [if_true, if_false] at h1 h2 ⊢ <;>
      simp [wrapExtraRunsGo, hc] <;> omega

theorem wrapExtraRunsGo_length_lt (s : List Char) (h : s.any isExtraChar = true) :
    s.length < (wrapExtraRunsGo false s).length := by
  induction s with
  | nil => simp at h
  | cons c rest ih =>
    cases hc : isExtraChar c with
    | true =>
      have h1 := wrapExtraRunsGo_length_ge rest true
      simp only [if_true] at h1
      simp [wrapExtraRunsGo, hc]
      omega
    | false =>
      simp only [List.any_cons, hc, Bool.false_or] at h
      have := ih h
      simp [wrapExtraRunsGo, hc]
      omega

theorem wrapExtraRunsGo_filter (s : List Char)
    (hb : ∀ c ∈ s, c ≠ '[' ∧ c ≠ ']') :
    ∀ b, (wrapExtraRunsGo b s).filter isNotBracket = s := by
  induction s with
  | nil => intro b; cases b <;> decide
  | cons c rest ih =>
    intro b
    have hc0 : c ≠ '[' ∧ c ≠ ']' := hb c (by simp)
    have hrest : ∀ x ∈ rest, x ≠ '[' ∧ x ≠ ']' := fun x hx => hb x (by simp [hx])
    have hcb : isNotBracket c = true := by
      simp [isNotBracket, hc0.1, hc0.2]
    have hlb : isNotBracket '[' = false := by decide
    have hrb : isNotBracket ']' = false := by decide
    cases b <;> cases hc : isExtraChar c <;>
      simp [wrapExtraRunsGo, hc, List.filter_cons, hcb, hlb, hrb, ih hrest true, ih hrest false]

theorem replaceAtPositions_cons (s : List Char) (p : Int) (ps : List Int) (c : Char) :
    replaceAtPositions s (p :: ps) c =
      replaceAtPositions (if 0 ≤ p ∧ p < (s.length : Int) then s.set p.toNat c else s) ps c := rfl

theorem replaceAtPositions_nil (s : List Char) (c : Char) :
    replaceAtPositions s [] c = s := rfl

theorem defangAtPositions_one (s : List Char) (h : 1 < s.length) :
    defangAtPositions s [1] = s.set 1 'x' := by
  unfold defangAtPositions
  rw [replaceAtPositions_cons, if_pos (by constructor <;> omega), replaceAtPositions_nil]
  rfl

theorem defangAtPositions_two (s : List Char) (h : 2 < s.length) :
    defangAtPositions s [2] = s.set 2 'x' := by
  unfold defangAtPositions
  rw [replaceAtPositions_cons, if_pos (by constructor <;> omega), replaceAtPositions_nil]
  rfl

theorem defangAtPositions_one_two (s : List Char) (h : 2 < s.length) :
    defangAtPositions s [1, 2] = (s.set 1 'x').set 2 'x' := by
  unfold defangAtPositions
  rw [replaceAtPositions_cons, if_pos (by constructor <;> omega),
    replaceAtPositions_cons,
    if_pos (by simp only [List.length_set]; constructor <;> omega),
    replaceAtPositions_nil]
  rfl

theorem setX_ne_self (s : List Char) (i : Nat) (hi : i < s.length)
    (hx : s.getD i 'x' ≠ 'x') : s.set i 'x' ≠ s := by
  intro h
  apply hx
  have := listGetD_set_self s i 'x' 'x' hi
  rw [h] at this
  exact this

theorem setXX_ne_self (s : List Char) (h2 : 2 < s.length)
    (hx : s.getD 1 'x' ≠ 'x' ∨ s.getD 2 'x' ≠ 'x') : (s.set 1 'x').set 2 'x' ≠ s := by
  intro h
  rcases hx with hx | hx
  · apply hx
    have h1 : ((s.set 1 'x').set 2 'x').getD 1 'x' = 'x' := by
      rw [listGetD_set_ne _ 1 2 'x' 'x' (by omega)]
      exact listGetD_set_self s 1 'x' 'x' (by omega)
    rw [h] at h1
    exact h1
  · apply hx
    have h1 : ((s.set 1 'x').set 2 'x').getD 2 'x' = 'x' := by
      apply listGetD_set_self
      simp only [List.length_set]
      omega
    rw [h] at h1
    exact h1

theorem exists_len_four (l : List Char) (h : l.length = 4) :
    ∃ a b c d, l = [a, b, c, d] := by
  rcases l with _ | ⟨a, _ | ⟨b, _ | ⟨c, _ | ⟨d, _ | ⟨e, l⟩⟩⟩⟩⟩ <;> simp_all

theorem ifBoolTrue {α : Sort u} (x y : α) : (if (true : Bool) then x else y) = x := rfl

theorem ifBoolFalse {α : Sort u} (x y : α) : (if (false : Bool) then x else y) = y := rfl

theorem verifySchemes_error_notValid (R : List Scheme) (e : CheckError)
    (h : defangedSchemesAreNotValid R = Except.error e) :
    verifySchemes R = Except.error e := by
  unfold verifySchemes
  rw [h]

theorem verifySchemes_ok_parts (R : List Scheme) (w : Nat)
    (h : verifySchemes R = Except.ok w) :
    ∃ w1 w2, defangedSchemesAreNotValid R = Except.ok w1 ∧
      defangedSchemesAreOneToOne R = Except.ok w2 := by
  unfold verifySchemes at h
  split at h
  next e h1 => exact absurd h (by simp)
  next w1 h1 =>
    split at h
    next e h2 => exact absurd h (by simp)
    next w2 h2 => exact ⟨w1, w2, h1, h2⟩

theorem notValidGo_first_error (all : List Scheme) (s : Scheme)
    (hs : defangedSchemeIsKnown s all = true) (hedge : isHttpEdgeCase s.scheme = false) :
    ∀ (pre post : List Scheme) (b : Bool) (w : Nat),
      (∀ t ∈ pre, defangedSchemeIsKnown t all = true → isHttpEdgeCase t.scheme = true) →
      notValidGo all (pre ++ s :: post) b w
        = Except.error (CheckError.stillValid s.defangedScheme) := by
  intro pre
  induction pre with
  | nil =>
    intro post b w _
    simp only [List.nil_append]
    unfold notValidGo
    rw [if_pos hs, if_neg (by simp [hedge])]
  | cons t pre ih =>
    intro post b w hpre
    simp only [List.cons_append]
    unfold notValidGo
    have hpre2 : ∀ u ∈ pre, defangedSchemeIsKnown u all = true →
        isHttpEdgeCase u.scheme = true := fun u hu => hpre u (by simp [hu])
    by_cases hk : defangedSchemeIsKnown t all = true
    · rw [if_pos hk, if_pos (hpre t (by simp) hk)]
      cases b with
      | false => rw [ifBoolFalse]; exact ih post _ _ hpre2
      | true => rw [ifBoolTrue]; exact ih post _ _ hpre2
    · rw [if_neg hk]
      exact ih post _ _ hpre2

theorem notValidGo_ok_sound (all : List Scheme) :
    ∀ (rest : List Scheme) (b : Bool) (w w2 : Nat),
      notValidGo all rest b w = Except.ok w2 →
      ∀ s ∈ rest, isHttpEdgeCase s.scheme = false →
        defangedSchemeIsKnown s all = false := by
  intro rest
  induction rest with
  | nil => intro b w w2 h s hs; exact absurd hs (List.not_mem_nil s)
  | cons t rest ih =>
    intro b w w2 h s hs hedge
    unfold notValidGo at h
    by_cases hk : defangedSchemeIsKnown t all = true
    · rw [if_pos hk] at h
      by_cases he : isHttpEdgeCase t.scheme = true
      · rw [if_pos he] at h
        rcases List.mem_cons.mp hs with rfl | hs2
        · rw [hedge] at he
          exact absurd he (by simp)
        · cases b with
          | false => rw [ifBoolFalse] at h; exact ih _ _ _ h s hs2 hedge
          | true => rw [ifBoolTrue] at h; exact ih _ _ _ h s hs2 hedge
      · rw [if_neg he] at h
        exact absurd h (by simp)
    · rw [if_neg hk] at h
      rcases List.mem_cons.mp hs with rfl | hs2
      · simpa using hk
      · exact ih _ _ _ h s hs2 hedge

theorem oneToOneGo_ok_sound (all : List Scheme) (s : Scheme) (post : List Scheme)
    (hedge : isHttpEdgeCase s.scheme = false) :
    ∀ (pre : List Scheme) (seen : List (List Char)) (b : Bool) (w w2 : Nat),
      oneToOneGo all (pre ++ s :: post) seen b w = Except.ok w2 →
      s.defangedScheme ∉ seen ∧ ∀ t ∈ pre, t.defangedScheme ≠ s.defangedScheme := by
  intro pre
  induction pre with
  | nil =>
    intro seen b w w2 h
    simp only [List.nil_append] at h
    unfold oneToOneGo at h
    constructor
    · intro hmem
      rw [if_pos (by simpa using hmem), if_neg (by simp [hedge])] at h
      exact absurd h (by simp)
    · intro t ht
      exact absurd ht (List.not_mem_nil t)
  | cons t pre ih =>
    intro seen b w w2 h
    simp only [List.cons_append] at h
    unfold oneToOneGo at h
    have hrec : ∃ b2 w3,
        oneToOneGo all (pre ++ s :: post) (t.defangedScheme :: seen) b2 w3
          = Except.ok w2 := by
      by_cases hcont : seen.contains t.defangedScheme = true
      · rw [if_pos hcont] at h
        by_cases he : isHttpEdgeCase t.scheme = true
        · rw [if_pos he] at h
          cases b with
          | false => rw [ifBoolFalse] at h; exact ⟨_, _, h⟩
          | true => rw [ifBoolTrue] at h; exact ⟨_, _, h⟩
        · rw [if_neg he] at h
          exact absurd h (by simp)
      · rw [if_neg hcont] at h
        exact ⟨_, _, h⟩
    obtain ⟨b2, w3, hrec⟩ := hrec
    have ih2 := ih (t.defangedScheme :: seen) b2 w3 w2 hrec
    refine ⟨fun hmem => ih2.1 (List.mem_cons_of_mem _ hmem), ?_⟩
    intro u hu
    rcases List.mem_cons.mp hu with rfl | hu2
    · intro heq
      exact ih2.1 (by rw [← heq]; exact List.mem_cons_self _ _)
    · exact ih2.2 u hu2

theorem oneToOneGo_error_ambiguous (all : List Scheme) :
    ∀ (rest done : List Scheme) (seen : List (List Char)) (b : Bool) (w : Nat)
      (d : List Char) (offs : List (List Char)),
      done ++ rest = all →
      (∀ x ∈ seen, ∃ t ∈ done, t.defangedScheme = x) →
      oneToOneGo all rest seen b w = Except.error (CheckError.ambiguous d offs) →
      offs = (all.filter (fun s1 => s1.defangedScheme == d)).map Scheme.scheme ∧
      2 ≤ offs.length := by
  intro rest
  induction rest with
  | nil =>
    intro done seen b w d offs hall hseen h
    exact absurd h (by simp [oneToOneGo])
  | cons s rest ih =>
    intro done seen b w d offs hall hseen h
    unfold oneToOneGo at h
    have hall2 : (done ++ [s]) ++ rest = all := by
      rw [List.append_assoc]
      simpa using hall
    have hseen2 : ∀ x ∈ s.defangedScheme :: seen,
        ∃ t ∈ done ++ [s], t.defangedScheme = x := by
      intro x hx
      rcases List.mem_cons.mp hx with rfl | hx2
      · exact ⟨s, by simp, rfl⟩
      · obtain ⟨t, ht, htx⟩ := hseen x hx2
        exact ⟨t, by simp [ht], htx⟩
    by_cases hcont : seen.contains s.defangedScheme = true
    · rw [if_pos hcont] at h
      by_cases he : isHttpEdgeCase s.scheme = true
      · rw [if_pos he] at h
        cases b with
        | false =>
          rw [ifBoolFalse] at h
          exact ih (done ++ [s]) _ _ _ d offs hall2 hseen2 h
        | true =>
          rw [ifBoolTrue] at h
          exact ih (done ++ [s]) _ _ _ d offs hall2 hseen2 h
      · rw [if_neg he] at h
        simp only [Except.error.injEq, CheckError.ambiguous.injEq] at h
        obtain ⟨hd, hoffs⟩ := h
        subst hd
        refine ⟨hoffs.symm, ?_⟩
        obtain ⟨t1, ht1, ht1d⟩ := hseen s.defangedScheme (by simpa using hcont)
        have hsplit : all.filter (fun s1 => s1.defangedScheme == s.defangedScheme)
            = done.filter (fun s1 => s1.defangedScheme == s.defangedScheme)
              ++ (s :: rest).filter (fun s1 => s1.defangedScheme == s.defangedScheme) := by
          rw [← hall, List.filter_append]
        have hm1 : t1 ∈ done.filter (fun s1 => s1.defangedScheme == s.defangedScheme) :=
          List.mem_filter.mpr ⟨ht1, by simp [ht1d]⟩
        have hm2 : s ∈ (s :: rest).filter (fun s1 => s1.defangedScheme == s.defangedScheme) :=
          List.mem_filter.mpr ⟨by simp, by simp⟩
        have hl1 : 1 ≤ (done.filter (fun s1 => s1.defangedScheme == s.defangedScheme)).length :=
          List.length_pos.mpr (List.ne_nil_of_mem hm1)
        have hl2 : 1 ≤ ((s :: rest).filter (fun s1 => s1.defangedScheme == s.defangedScheme)).length :=
          List.length_pos.mpr (List.ne_nil_of_mem hm2)
        rw [← hoffs, List.length_map, hsplit, List.length_append]
        omega
    · rw [if_neg hcont] at h
      exact ih (done ++ [s]) _ _ _ d offs hall2 hseen2 h

/-! ### Claim theorems -/

/-- C8: `DefangScheme "https" = "hxxps"` and `DefangScheme "http" = "hxxp"`;
for these two inputs the characters at positions 1 and 2 are replaced by the
marker `x` and every other character is unchanged, as the two concrete output
strings exhibit. -/
theorem defang_http_https :
    DefangScheme "http".toList = some "hxxp".toList ∧
    DefangScheme "https".toList = some "hxxps".toList := by
  constructor <;> decide

/-- C6: any scheme of length at least 2, other than `http` and `https`, that
contains one of `-`, `+`, `.` is defanged by the bracket-wrapping rule
(`wrapExtraRuns`, the embedding of the regex replacement of every maximal
run of those characters by the run in square brackets), whatever its length;
and the output with the inserted brackets removed is the input again, so no
other character is touched and no marker substitution happens. -/
theorem defang_bracket_wrap (s : List Char)
    (hlen : 2 ≤ s.length)
    (hhttp : s ≠ "http".toList) (hhttps : s ≠ "https".toList)
    (hextra : s.any isExtraChar = true)
    (hnb : ∀ c ∈ s, c ≠ '[' ∧ c ≠ ']') :
    DefangScheme s = some (wrapExtraRuns s) ∧
    (wrapExtraRuns s).filter isNotBracket = s := by
  constructor
  · unfold DefangScheme
    rw [if_neg (by omega), if_neg (not_or.mpr ⟨hhttp, hhttps⟩), if_pos hextra]
  · exact wrapExtraRunsGo_filter s hnb false

/-- Witness for C6 at the concrete scheme `a.b`. -/
theorem defang_bracket_wrap_witness :
    DefangScheme "a.b".toList = some (wrapExtraRuns "a.b".toList) ∧
    (wrapExtraRuns "a.b".toList).filter isNotBracket = "a.b".toList :=
  defang_bracket_wrap "a.b".toList (by decide) (by decide) (by decide) (by decide)
    (by decide)

/-- C3 counterexample: the empty string is shorter than 2 characters, yet
`DefangScheme` does not signal an error on it — it returns the empty string
(only length-1 inputs take the aborting path). -/
theorem defang_short_input_cex :
    ([] : List Char).length < 2 ∧ DefangScheme ([] : List Char) = some [] := by
  constructor <;> decide

/-- C3 amended: `DefangScheme` signals the input-validation error exactly on
inputs of length 1; every input of any other length — including the empty
string — returns a result. -/
theorem defang_error_iff_length_one (s : List Char) :
    DefangScheme s = none ↔ s.length = 1 := by
  unfold DefangScheme
  split_ifs with h1 h2 h3 h4 h5 h6 <;> simp_all

/-- C2 counterexample: on the registry containing exactly `http`, `https`,
`hxxp`, `hxxps` the verification pass succeeds, but with two warnings, not
one: each of the two checks emits its own one-time exception warning. -/
theorem verify_quad_warning_count_cex :
    verifySchemes httpQuadRegistry = Except.ok 2 ∧ (2 : Nat) ≠ 1 :=
  ⟨rfl, by decide⟩

/-- C2 amended: on the registry containing exactly `http`, `https`, `hxxp`,
`hxxps` the verification pass succeeds with zero fatal errors and exactly two
warnings — the HTTP[S] exception is emitted exactly once by the non-validity
check and exactly once by the injectivity check, never silently swallowed. -/
theorem verify_quad_report :
    defangedSchemesAreNotValid httpQuadRegistry = Except.ok 1 ∧
    defangedSchemesAreOneToOne httpQuadRegistry = Except.ok 1 ∧
    verifySchemes httpQuadRegistry = Except.ok 2 :=
  ⟨rfl, rfl, rfl⟩

/-- C1 counterexample: `hxxp` has length 4 ≥ 2 and is returned unchanged by
`DefangScheme` (its marker position 2 already holds `x`), so the output does
not differ from the input in any character. -/
theorem defang_identity_cex :
    ¬ (∀ s : List Char, 2 ≤ s.length → DefangScheme s ≠ some s) := by
  intro h
  exact h "hxxp".toList (by decide) (by decide)

/-- C1 amended: for every scheme of length at least 2, the defanged output
differs from the input unless the input contains none of `-`, `+`, `.` and
already holds the marker `x` at every position the applicable rule would
overwrite (as `hxxp` and `hxxps` do). -/
theorem defang_ne_self (s : List Char) (hlen : 2 ≤ s.length)
    (hviol : s.any isExtraChar = true ∨ ∃ i ∈ markerPositions s, s.getD i 'x' ≠ 'x') :
    DefangScheme s ≠ some s := by
  unfold DefangScheme
  split_ifs with h1 h2 h3 h4 h5 h6
  · simp
  · rcases h2 with h2 | h2 <;> subst h2 <;> decide
  · intro h
    have hw : wrapExtraRuns s = s := Option.some.inj h
    have := wrapExtraRunsGo_length_lt s h3
    rw [show wrapExtraRunsGo false s = wrapExtraRuns s from rfl, hw] at this
    omega
  · rcases hviol with hv | ⟨i, hi, hx⟩
    · exact absurd hv h3
    · have hm : markerPositions s = [1] := by
        unfold markerPositions
        rw [if_neg h2, if_pos h4]
      rw [hm] at hi
      simp only [List.mem_singleton] at hi
      subst hi
      rw [defangAtPositions_one s (by omega)]
      intro h
      exact setX_ne_self s 1 (by omega) hx (Option.some.inj h)
  · rcases hviol with hv | ⟨i, hi, hx⟩
    · exact absurd hv h3
    · have hm : markerPositions s = [1] := by
        unfold markerPositions
        rw [if_neg h2, if_neg h4, if_pos h5]
      rw [hm] at hi
      simp only [List.mem_singleton] at hi
      subst hi
      rw [defangAtPositions_one s (by omega)]
      intro h
      exact setX_ne_self s 1 (by omega) hx (Option.some.inj h)
  · rcases hviol with hv | ⟨i, hi, hx⟩
    · exact absurd hv h3
    · have hm : markerPositions s = [2] := by
        unfold markerPositions
        rw [if_neg h2, if_neg h4, if_neg h5, if_pos h6]
      rw [hm] at hi
      simp only [List.mem_singleton] at hi
      subst hi
      rw [defangAtPositions_two s (by omega)]
      intro h
      exact setX_ne_self s 2 (by omega) hx (Option.some.inj h)
  · rcases hviol with hv | ⟨i, hi, hx⟩
    · exact absurd hv h3
    · have hm : markerPositions s = [1, 2] := by
        unfold markerPositions
        rw [if_neg h2, if_neg h4, if_neg h5, if_neg h6]
      rw [hm] at hi
      simp only [List.mem_cons, List.mem_singleton, List.not_mem_nil, or_false] at hi
      rw [defangAtPositions_one_two s (by omega)]
      intro h
      have hd : s.getD 1 'x' ≠ 'x' ∨ s.getD 2 'x' ≠ 'x' := by
        rcases hi with hi | hi
        · subst hi; exact Or.inl hx
        · subst hi; exact Or.inr hx
      exact setXX_ne_self s (by omega) hd (Option.some.inj h)

/-- Witness for the amended C1 at the concrete scheme `ftp` (marker position
1 holds `t`, not `x`), which defangs to `fxp`. -/
theorem defang_ne_self_witness :
    2 ≤ ("ftp".toList).length ∧ DefangScheme "ftp".toList ≠ some "ftp".toList :=
  ⟨by decide,
    defang_ne_self "ftp".toList (by decide) (Or.inr ⟨1, by decide, by decide⟩)⟩

/-- C10: a scheme of length at least 2 containing none of `-`, `+`, `.`
whose rule-designated marker positions already hold the letter `x` is
returned unchanged by `DefangScheme`; in particular the registered schemes
`hxxp` and `hxxps` are fixed points of the algorithm. -/
theorem defang_fixed_points (s : List Char) (hlen : 2 ≤ s.length)
    (hext : s.any isExtraChar = false)
    (hm : ∀ i ∈ markerPositions s, s.getD i 'x' = 'x') :
    DefangScheme s = some s ∧
    DefangScheme "hxxp".toList = some "hxxp".toList ∧
    DefangScheme "hxxps".toList = some "hxxps".toList := by
  refine ⟨?_, by decide, by decide⟩
  unfold DefangScheme
  split_ifs with h1 h2 h3 h4 h5 h6
  · omega
  · exfalso
    have hm1 : markerPositions s = [1, 2] := by
      unfold markerPositions
      rw [if_pos h2]
    rcases h2 with h2 | h2 <;> subst h2 <;>
      exact absurd (hm 1 (by rw [hm1]; decide)) (by decide)
  · rw [h3] at hext
    exact absurd hext (by decide)
  · have hm1 : markerPositions s = [1] := by
      unfold markerPositions
      rw [if_neg h2, if_pos h4]
    rw [defangAtPositions_one s (by omega),
      listSet_getD_eq_self s 1 'x' (hm 1 (by rw [hm1]; decide))]
  · have hm1 : markerPositions s = [1] := by
      unfold markerPositions
      rw [if_neg h2, if_neg h4, if_pos h5]
    rw [defangAtPositions_one s (by omega),
      listSet_getD_eq_self s 1 'x' (hm 1 (by rw [hm1]; decide))]
  · have hm1 : markerPositions s = [2] := by
      unfold markerPositions
      rw [if_neg h2, if_neg h4, if_neg h5, if_pos h6]
    rw [defangAtPositions_two s (by omega),
      listSet_getD_eq_self s 2 'x' (hm 2 (by rw [hm1]; decide))]
  · have hm1 : markerPositions s = [1, 2] := by
      unfold markerPositions
      rw [if_neg h2, if_neg h4, if_neg h5, if_neg h6]
    rw [defangAtPositions_one_two s (by omega),
      listSet_getD_eq_self s 1 'x' (hm 1 (by rw [hm1]; decide)),
      listSet_getD_eq_self s 2 'x' (hm 2 (by rw [hm1]; decide))]

/-- C7: a 4-character scheme other than `http` containing none of `-`, `+`,
`.` is defanged by overwriting exactly position 2 (0-indexed) with the marker
`x`, leaving positions 0, 1 and 3 unchanged; consequently two such schemes
that differ at position 1 (such as `icap` and `imap`) defang to distinct
strings. -/
theorem defang_length_four (s t : List Char)
    (hs4 : s.length = 4) (hshttp : s ≠ "http".toList)
    (hsext : s.any isExtraChar = false)
    (ht4 : t.length = 4) (hthttp : t ≠ "http".toList)
    (htext : t.any isExtraChar = false) :
    DefangScheme s = some (s.set 2 'x') ∧
    (s.set 2 'x').getD 2 'a' = 'x' ∧
    (s.set 2 'x').getD 0 'a' = s.getD 0 'a' ∧
    (s.set 2 'x').getD 1 'a' = s.getD 1 'a' ∧
    (s.set 2 'x').getD 3 'a' = s.getD 3 'a' ∧
    (s.getD 1 'a' ≠ t.getD 1 'a' → DefangScheme s ≠ DefangScheme t) := by
  have hmain : ∀ u : List Char, u.length = 4 → u ≠ "http".toList →
      u.any isExtraChar = false → DefangScheme u = some (u.set 2 'x') := by
    intro u h4 hh he
    unfold DefangScheme
    rw [if_neg (by omega),
      if_neg (not_or.mpr ⟨hh, by intro hc; have := congrArg List.length hc; simp [h4] at this⟩),
      if_neg (by simp [he]), if_neg (by omega), if_neg (by omega), if_pos h4,
      defangAtPositions_two u (by omega)]
  have hs := hmain s hs4 hshttp hsext
  have ht := hmain t ht4 hthttp htext
  obtain ⟨a, b, c, d, rfl⟩ := exists_len_four s hs4
  obtain ⟨e, f, g, k, rfl⟩ := exists_len_four t ht4
  refine ⟨hs, rfl, rfl, rfl, rfl, ?_⟩
  intro hne heq
  rw [hs, ht] at heq
  have hbf : b ≠ f := hne
  simp only [List.set, Option.some.injEq, List.cons.injEq, and_true] at heq
  exact hbf heq.2.1

/-- Witness for C7 at the concrete schemes `icap` and `imap`. -/
theorem defang_length_four_witness :
    DefangScheme "icap".toList ≠ DefangScheme "imap".toList := by
  have h := defang_length_four "icap".toList "imap".toList (by decide) (by decide)
    (by decide) (by decide) (by decide) (by decide)
  exact h.2.2.2.2.2 (by decide)

/-- Witness for C10 at the concrete scheme `hxxp`. -/
theorem defang_fixed_points_witness :
    DefangScheme "hxxp".toList = some "hxxp".toList ∧
    DefangScheme "hxxps".toList = some "hxxps".toList := by
  have h := defang_fixed_points "hxxp".toList (by decide) (by decide) (by decide)
  exact ⟨h.1, h.2.2⟩

/-- C5 counterexample: on a registry with two independent non-exempt
violations of the non-validity check (`ab` defangs to the registered name
`ax`, and `cd` defangs to the registered name `cx`), the verification pass
reports only the first violation in its error — the error value names `ax`
only, and the distinct violation by `cd` (whose defanged form `cx` is also a
known scheme) is not collected. -/
theorem verify_first_error_only_cex :
    verifySchemes twoViolationRegistry
      = Except.error (CheckError.stillValid "ax".toList) ∧
    defangedSchemeIsKnown cdScheme twoViolationRegistry = true ∧
    isHttpEdgeCase cdScheme.scheme = false ∧
    cdScheme.defangedScheme ≠ "ax".toList :=
  ⟨rfl, by decide, by decide, by decide⟩

/-- C5 amended: when the registry contains non-exempted violations, the
verification pass aborts at the first one encountered and reports only it:
whatever records follow the first non-exempt violator, the result is the
fatal error naming that violator's defanged string. -/
theorem verify_aborts_at_first_violation (pre post : List Scheme) (s : Scheme)
    (hpre : ∀ t ∈ pre, defangedSchemeIsKnown t (pre ++ s :: post) = true →
      isHttpEdgeCase t.scheme = true)
    (hs : defangedSchemeIsKnown s (pre ++ s :: post) = true)
    (hedge : isHttpEdgeCase s.scheme = false) :
    verifySchemes (pre ++ s :: post)
      = Except.error (CheckError.stillValid s.defangedScheme) := by
  apply verifySchemes_error_notValid
  unfold defangedSchemesAreNotValid
  exact notValidGo_first_error (pre ++ s :: post) s hs hedge pre post false 0 hpre

/-- Witness for the amended C5 on the concrete two-violation registry. -/
theorem verify_aborts_at_first_violation_witness :
    verifySchemes [abScheme, axScheme, cdScheme, cxScheme]
      = Except.error (CheckError.stillValid "ax".toList) := by
  have h := verify_aborts_at_first_violation [] [axScheme, cdScheme, cxScheme]
    abScheme (by intro t ht; exact absurd ht (List.not_mem_nil t)) (by decide) (by decide)
  exact h

/-- C4 counterexample: the invented scheme `hxtp` and the real scheme `http`
both defang to `hxxp`, an ambiguity that is not confined to the
`http`/`https`/`hxxp`/`hxxps` quadruple (`hxtp` is outside it); yet on the
registry `[hxtp, http]` the verification pass succeeds with a warning
instead of reporting a fatal error, because the exemption tests only the
name of the record that triggers the check (`http` here). -/
theorem verify_name_keyed_exemption_cex :
    DefangScheme "hxtp".toList = some "hxxp".toList ∧
    DefangScheme "http".toList = some "hxxp".toList ∧
    isHttpEdgeCase hxtpScheme.scheme = false ∧
    verifySchemes nameKeyedExemptionRegistry = Except.ok 1 :=
  ⟨by decide, by decide, by decide, rfl⟩

/-- C4 amended: the exemption is keyed on the name of the record that
triggers a check.  Consequently what a successful verification guarantees
is: every record whose name is outside the quadruple neither defangs to a
known scheme name nor repeats the defanged form of any record before it.
Violations triggered by a record named inside the quadruple can pass even
when the other party to the collision is outside it. -/
theorem verify_ok_nonexempt_clean (R : List Scheme) (w : Nat)
    (hok : verifySchemes R = Except.ok w) :
    ∀ pre s post, R = pre ++ s :: post → isHttpEdgeCase s.scheme = false →
      defangedSchemeIsKnown s R = false ∧
      ∀ t ∈ pre, t.defangedScheme ≠ s.defangedScheme := by
  obtain ⟨w1, w2, h1, h2⟩ := verifySchemes_ok_parts R w hok
  intro pre s post hR hedge
  constructor
  · unfold defangedSchemesAreNotValid at h1
    refine notValidGo_ok_sound R R false 0 w1 h1 s ?_ hedge
    rw [hR]
    exact List.mem_append.mpr (Or.inr (List.mem_cons_self _ _))
  · unfold defangedSchemesAreOneToOne at h2
    rw [hR] at h2
    exact (oneToOneGo_ok_sound _ s post hedge pre [] false 0 w2 h2).2

/-- Witness for the amended C4 on a concrete one-record registry. -/
theorem verify_ok_nonexempt_clean_witness :
    defangedSchemeIsKnown abScheme [abScheme] = false := by
  have h := verify_ok_nonexempt_clean [abScheme] 0 rfl [] abScheme [] rfl (by decide)
  exact h.1

/-- C9: whenever the injectivity check fails with an ambiguity error for a
defanged string `d`, the reported offender list contains the original name
of every record in the input whose defanged form is `d` — at least two of
them — not just the first two found. -/
theorem ambiguity_report_complete (R : List Scheme) (d : List Char)
    (offs : List (List Char))
    (herr : defangedSchemesAreOneToOne R
      = Except.error (CheckError.ambiguous d offs)) :
    (∀ t ∈ R, t.defangedScheme = d → t.scheme ∈ offs) ∧ 2 ≤ offs.length := by
  unfold defangedSchemesAreOneToOne at herr
  have h := oneToOneGo_error_ambiguous R R [] [] false 0 d offs rfl
    (by intro x hx; exact absurd hx (List.not_mem_nil x)) herr
  refine ⟨?_, h.2⟩
  intro t ht hd
  rw [h.1]
  exact List.mem_map_of_mem _ (List.mem_filter.mpr ⟨ht, by simp [hd]⟩)

/-- Witness for C9 on the concrete three-way collision registry: the error
report for `axb` names all three of `aab`, `acb`, `adb`, including `adb`,
which occurs after the record that triggered the error. -/
theorem ambiguity_report_complete_witness :
    "adb".toList ∈ ["aab".toList, "acb".toList, "adb".toList] ∧
    2 ≤ (["aab".toList, "acb".toList, "adb".toList] : List (List Char)).length := by
  have h := ambiguity_report_complete threeWayRegistry "axb".toList
    ["aab".toList, "acb".toList, "adb".toList] rfl
  exact ⟨h.1 adbScheme (by decide) rfl, h.2⟩
